import Mathlib

/-
  Verification of the stalker_hls_proxy repository: a shallow embedding of
  the data model and the pure logic of the Python source
  (stalker_hls_proxy.py), with theorems settling the specification claims.

  Conventions of the embedding:
  * Python strings are `String` (config literals) or `List Char` (for the
    character-level URL/line algorithms); bytes bodies are `List Nat`.
  * Wall-clock times (`time.time()` values) are rationals `ℚ`.
  * Upstream HTTP outcomes are an explicit oracle datatype: a network
    exception, or a response with status, body and final (post-redirect)
    URL.
  * Mutable module state (the MAC cursor map, a session, the cache) is
    passed and returned explicitly.
-/

namespace StalkerProxy

-- ---------------------------------------------------------------------------
-- CONFIG (transcribed from the source, lines 22-95)
-- ---------------------------------------------------------------------------

def PORTALS : List String :=
  [ "ledir.thund.re",
    "stalker.ugoiptv.com:80",
    "93.119.105.61:80",
    "clientsportals.tv:2095",
    "foxx.pure-iptv.net:80" ]

def MAC_POOLS : List (String × List String) :=
  [ ("ledir.thund.re",
     [ "00:1A:79:00:0A:2C", "00:1A:79:1A:04:B7", "00:1A:79:C5:94:26",
       "00:1A:79:79:6E:FF", "00:1A:79:00:37:10", "00:1A:79:1B:F7:B7",
       "00:1A:79:02:13:52", "00:1A:79:B9:81:75", "00:1A:79:01:64:74",
       "00:1A:79:7B:1D:45", "00:1A:79:6E:82:2C" ]),
    ("stalker.ugoiptv.com:80",
     [ "00:1A:79:B7:B4:EB", "00:1A:79:71:F3:B0", "00:1A:79:76:2D:D2",
       "00:1A:79:C2:7A:0F", "00:1A:79:BF:90:B0", "00:1A:79:6F:1F:CB",
       "00:1A:79:97:BA:47", "00:1A:79:BE:BF:B5", "00:1A:79:FF:FF:F4",
       "00:1A:79:32:53:16", "00:1A:79:79:F2:42", "00:1A:79:00:1C:5B",
       "00:1A:79:00:18:51", "00:1A:79:B1:66:BD", "00:1A:79:00:11:DE",
       "00:1A:79:42:DA:30", "00:1A:79:31:61:31", "00:1A:79:B3:91:AA",
       "00:1A:79:B6:5F:F0", "00:1A:79:E6:F9:FC", "00:1A:79:C1:1B:1A",
       "00:1A:79:C2:7A:0F", "00:1A:79:BF:90:B0", "00:1A:79:7E:19:2B",
       "00:1A:79:32:C5:93", "00:1A:79:E8:63:0C", "00:1A:79:7E:A9:DC",
       "00:1A:79:13:2C:FD" ]),
    ("93.119.105.61:80",
     [ "00:1A:79:4D:F6:60", "00:1A:79:13:8F:5A", "00:1A:79:00:1F:2B",
       "00:1A:79:B0:64:C2", "00:1A:79:00:40:EF", "00:1A:79:00:27:C5",
       "00:1A:79:82:05:98", "00:1A:79:72:BB:CF", "00:1A:79:79:4C:E4",
       "00:1A:79:00:27:C4", "00:1A:79:4D:6F:C6", "00:1A:79:B5:B1:C2",
       "00:1A:79:C2:7E:5F", "00:1A:79:B5:B6:D5", "00:1A:79:80:5F:4C",
       "00:1A:79:01:B6:C5", "00:1A:79:B0:64:C2", "00:1A:79:00:28:B5",
       "00:1A:79:65:ED:E2", "00:1A:79:B5:B1:C2" ]),
    ("clientsportals.tv:2095",
     [ "00:1A:79:CC:3E:EE", "00:1A:79:BF:C8:FC", "00:1A:79:C8:64:66",
       "00:1A:79:BF:C8:FD", "00:1A:79:B9:E6:73", "00:1A:79:B6:DF:D1",
       "00:1A:79:52:36:AE", "00:1A:79:3C:A7:74", "00:1A:79:4D:EF:D0",
       "00:1A:79:57:66:9E", "00:1A:79:3A:20:9C", "00:1A:79:4D:DD:33" ]),
    ("foxx.pure-iptv.net:80",
     [ "00:1A:79:AF:01:C7", "00:1A:79:22:20:42", "00:1A:79:C1:92:57",
       "00:1A:79:BE:55:F2", "00:1A:79:6A:3C:19", "00:1A:79:AC:76:38" ]) ]

def TOKEN_HOSTS : List String := ["foxx.pure-iptv.net:80"]

/-- Model of `AUTH_TOKENS` as an association list that preserves the Python dict's
insertion order (source lines 73-79). -/
def AUTH_TOKENS : List (String × String) :=
  [ ("00:1A:79:AF:01:C7", "AC38FF7569DB3E0D41A548EDC5367D23&sn2="),
    ("00:1A:79:AC:76:38", "99E271197A32250B0F8DCAA0E9E3A4EA&sn2="),
    ("00:1A:79:6A:3C:19", "FCB9D1D3070185FAD9DD9A707ADC160B&sn2="),
    ("00:1A:79:C1:92:57", "9727A2E9CC67AA6E67A2A8D25C29EFA5&sn2="),
    ("00:1A:79:BE:55:F2", "6BC5B0C9FEA2C54A71704A6D5E528668&sn2=") ]

def DEFAULT_MAC_POOL : List String :=
  [ "00:1A:79:00:0A:2C", "00:1A:79:1A:04:B7", "00:1A:79:C5:94:26",
    "00:1A:79:02:13:52", "00:1A:79:B9:81:75", "00:1A:79:02:59:77",
    "00:1A:79:73:16:62", "00:1A:79:C6:E5:E9" ]

def MAX_CACHE_KEYS : Nat := 10000
def MAX_CACHE_BYTES : Nat := 50 * 2 ^ 20
def PLAYLIST_TTL : ℚ := 10
def SEGMENT_TTL : ℚ := 4
def SEG_OK_LIMIT : Nat := 6
def MIN_SWITCH_SEC : ℚ := 4
def BAD_CODES : List Nat := [204, 405, 407, 451, 458, 512]

-- ---------------------------------------------------------------------------
-- Session state and the handlers' effect on it (source lines 157-162, 247-278)
-- ---------------------------------------------------------------------------

/-- Per-stream session state (class `Session`, source lines 157-160).
`base_url` is kept as `List Char`; the lock is a concurrency artefact with no
sequential content and is omitted. -/
structure Session where
  portal_idx : Nat
  seg_ok : Nat
  last_switch : ℚ
  base_url : List Char
  last_use : ℚ
  deriving Repr, DecidableEq

/-- Defaults of the `Session()` constructor (source lines 158-160). -/
def initSession : Session :=
  { portal_idx := 0, seg_ok := 0, last_switch := 0, base_url := [], last_use := 0 }

/-- Result of an `obtain_playlist` call as seen by a route handler:
`none` models the raised exception, `some (base, body, idx)` a success. -/
abbrev AcquireResult := Option (List Char × List Nat × Nat)

/-- Effect of the `segment` route handler (source lines 259-278) on the
session whose id matched the path hint, together with the rotation flag
(whether the double-checked rotation branch fired).  `st` is the status
returned by `fetch`, `now` the value of `time.time()`, and `acq` the outcome
of the `obtain_playlist` call made on the rotation path — the handler binds
no name to that result, so the model takes it as an unused argument. -/
def segmentStep (s : Session) (st : Nat) (now : ℚ) (acq : AcquireResult) : Session × Bool :=
  let _ := acq
  let okb : Bool := decide (200 ≤ st ∧ st < 300)
  let so : Nat := if okb then s.seg_ok + 1 else SEG_OK_LIMIT
  let s1 : Session := { s with last_use := now, seg_ok := so }
  if SEG_OK_LIMIT ≤ so ∧ MIN_SWITCH_SEC < now - s1.last_switch then
    ({ s1 with seg_ok := 0, last_switch := now }, true)
  else
    (s1, false)

/-- Effect of the `playlist` route handler (source lines 247-257) on the
session: fields are first reset, then `obtain_playlist` is called with the
reduced index; on failure (`acq = none`) the handler re-raises (HTTP 502)
leaving the partially updated session; on success it stores the returned
portal index and base URL. -/
def playlistStep (s : Session) (pidx : Nat) (now : ℚ) (acq : AcquireResult) : Session :=
  let s1 : Session :=
    { s with portal_idx := pidx % PORTALS.length, seg_ok := 0,
             last_switch := now, last_use := now }
  match acq with
  | none => s1
  | some (base, _body, idx) => { s1 with portal_idx := idx, base_url := base }

-- ---------------------------------------------------------------------------
-- Character-level string primitives (models of the Python str operations the
-- source applies; ASCII-faithful)
-- ---------------------------------------------------------------------------

/-- The characters `str.strip()` removes (Python's `str.isspace` set,
restricted to ASCII). -/
def isPySpace (c : Char) : Bool :=
  c = ' ' ∨ c = '\t' ∨ c = '\n' ∨ c = '\x0d' ∨ c = '\x0b' ∨ c = '\x0c'

/-- Model of Python `str.strip()`. -/
def pyStrip (s : List Char) : List Char :=
  ((s.dropWhile isPySpace).reverse.dropWhile isPySpace).reverse

def isHexDigit (c : Char) : Bool :=
  ('0' ≤ c ∧ c ≤ '9') ∨ ('a' ≤ c ∧ c ≤ 'f') ∨ ('A' ≤ c ∧ c ≤ 'F')

def hexVal (c : Char) : Nat :=
  if '0' ≤ c ∧ c ≤ '9' then c.toNat - '0'.toNat
  else if 'a' ≤ c ∧ c ≤ 'f' then c.toNat - 'a'.toNat + 10
  else if 'A' ≤ c ∧ c ≤ 'F' then c.toNat - 'A'.toNat + 10
  else 0

/-- Model of `urllib.parse.unquote`, restricted to single-byte (ASCII)
percent escapes: a `%` followed by two hex digits decodes to that byte;
anything else is copied verbatim (CPython leaves malformed escapes alone). -/
def unquote : List Char → List Char
  | [] => []
  | '%' :: a :: b :: r2 =>
    if isHexDigit a ∧ isHexDigit b then
      Char.ofNat (16 * hexVal a + hexVal b) :: unquote r2
    else '%' :: unquote (a :: b :: r2)
  | c :: rest => c :: unquote rest

/-- Test that `p` is a leading segment of `s` (model of Python `str.startswith`). -/
def startsWithL : List Char → List Char → Bool
  | [], _ => true
  | _ :: _, [] => false
  | p :: ps, c :: cs => p = c && startsWithL ps cs

/-- Whether `"//"` occurs in `s` (model of Python `"//" in seg`). -/
def hasDS : List Char → Bool
  | [] => false
  | [_] => false
  | a :: b :: t => (a = '/' && b = '/') || hasDS (b :: t)

/-- Everything after the first `"//"` (model of `seg.split("//", 1)[-1]`:
when no `"//"` occurs the whole string is returned). -/
def afterDS : List Char → List Char
  | [] => []
  | [c] => [c]
  | a :: b :: t => if a = '/' && b = '/' then t else afterDS (b :: t)

-- ---------------------------------------------------------------------------
-- `normalise` (source lines 210-218)
-- ---------------------------------------------------------------------------

def httpCSS : List Char := ['h', 't', 't', 'p', ':', '/', '/']
def httpsCSS : List Char := ['h', 't', 't', 'p', 's', ':', '/', '/']
def pctPfx : List Char := ['%', '3', 'A', '/', '/']
def colonSS : List Char := [':', '/', '/']

/-- The three sequential `if` rewrites of `normalise` applied after the
`unquote(strip(.))` step (source lines 212-217). -/
def normaliseBranches (s : List Char) : List Char :=
  let s1 := if startsWithL pctPfx s then ['h', 't', 't', 'p'] ++ s.drop 2 else s
  let s2 := if startsWithL colonSS s1 then ['h', 't', 't', 'p'] ++ s1 else s1
  if hasDS s2 ∧ ¬(startsWithL httpCSS s2 ∨ startsWithL httpsCSS s2 ∨ startsWithL ['/'] s2)
  then httpCSS ++ afterDS s2
  else s2

/-- Model of `normalise` (source lines 210-218): `seg = unquote(seg.strip())`
followed by the three prefix rewrites. -/
def normalise (s : List Char) : List Char :=
  normaliseBranches (unquote (pyStrip s))

-- ---------------------------------------------------------------------------
-- URL parsing/joining models (urllib.parse as used by the source)
-- ---------------------------------------------------------------------------

/-- Components `(scheme, netloc, path)` of an absolute `http(s)`-style URL:
scheme up to the first `:`, authority after the first `"//"` up to a
`/`, `?` or `#`, then the path up to a `?` or `#` (query and fragment are
dropped, as the rewriter never uses them). -/
def parseHttpUrl (s : List Char) : List Char × List Char × List Char :=
  let scheme := s.takeWhile (fun c => c ≠ ':')
  let rest := afterDS s
  let netloc := rest.takeWhile (fun c => c ≠ '/' ∧ c ≠ '?' ∧ c ≠ '#')
  let path := (rest.drop netloc.length).takeWhile (fun c => c ≠ '?' ∧ c ≠ '#')
  (scheme, netloc, path)

/-- The directory part of a path: everything up to and including the last
`/` (empty when the path has no `/`). -/
def upToLastSlash (s : List Char) : List Char :=
  (s.reverse.dropWhile (fun c => c ≠ '/')).reverse

/-- Model of `urllib.parse.urljoin` for the cases the rewriter exercises:
the base is an absolute `http(s)` URL, the relative reference contains no
dot segments. -/
def urljoinL (base rel : List Char) : List Char :=
  let p := parseHttpUrl base
  if startsWithL httpCSS rel || startsWithL httpsCSS rel then rel
  else if startsWithL ['/', '/'] rel then p.1 ++ [':'] ++ rel
  else if startsWithL ['/'] rel then p.1 ++ colonSS ++ p.2.1 ++ rel
  else if rel = [] then base
  else p.1 ++ colonSS ++ p.2.1 ++ upToLastSlash p.2.2 ++ rel

-- ---------------------------------------------------------------------------
-- `rewrite_m3u8` (source lines 220-226)
-- ---------------------------------------------------------------------------

/-- The substitution body `repl` of `rewrite_m3u8` applied to one matched
line, guarded by the `SEG_RE` pattern `^(?!#)([^\r\n]+)` (empty lines and
lines starting with `#` do not match and pass through). -/
def rewriteLine (base line : List Char) : List Char :=
  if line = [] ∨ startsWithL ['#'] line then line
  else
    let seg := normalise line
    let full := if startsWithL httpCSS seg || startsWithL httpsCSS seg
                then seg else urljoinL base seg
    let p := parseHttpUrl full
    ['/', 's', 'e', 'g', 'm', 'e', 'n', 't', '/'] ++ p.1 ++ ['/'] ++ p.2.1 ++ p.2.2

/-- Split on `'\n'` (the inputs under test contain no `'\r'`). -/
def splitLines (s : List Char) : List (List Char) :=
  match s.splitOn '\n' with
  | ls => ls

/-- Model of `rewrite_m3u8` (source lines 220-226): every line not starting with `#`
and non-empty is rewritten via `repl`; other lines pass through. -/
def rewrite_m3u8 (text : List Char) (base : List Char) : List Char :=
  List.intercalate ['\n'] ((splitLines text).map (rewriteLine base))

-- ---------------------------------------------------------------------------
-- Base-URL derivation inside `obtain_playlist` (source lines 198-199)
-- ---------------------------------------------------------------------------

/-- Model of `urlunparse(urlparse(u)._replace(query="", fragment=""))` for an
`http(s)` URL string: everything before the first `?` or `#`. -/
def stripQF (s : List Char) : List Char :=
  s.takeWhile (fun c => c ≠ '?' ∧ c ≠ '#')

/-- Whether the string ends with `/` (Python `str.endswith('/')`). -/
def lastIsSlash (s : List Char) : Bool :=
  s.getLast? = some '/'

/-- Model of `s.rsplit('/', 1)[0]`: everything strictly before the last
`/`; the whole string when it contains no `/`. -/
def beforeLastSlash (s : List Char) : List Char :=
  if '/' ∈ s then ((s.reverse.dropWhile (fun c => c ≠ '/')).drop 1).reverse
  else s

/-- The base-URL computation of `obtain_playlist` (source lines 198-199)
applied to the final response URL string `u` (`str(r.url)`):
`urlunparse(pr) if str(r.url).endswith('/') else
 urlunparse(pr).rsplit('/',1)[0]+'/'`. -/
def baseFromUrl (u : List Char) : List Char :=
  if lastIsSlash u then stripQF u
  else beforeLastSlash (stripQF u) ++ ['/']

/-- A structured final-response URL, used to state claims about
`baseFromUrl`. `render` produces the string `str(r.url)`; `urlunparse`
omits the `?`/`#` separators when query/fragment are empty. -/
structure PyUrl where
  scheme : List Char
  netloc : List Char
  path : List Char
  query : List Char
  fragment : List Char
  deriving Repr, DecidableEq

def PyUrl.render (u : PyUrl) : List Char :=
  u.scheme ++ colonSS ++ u.netloc ++ u.path ++
    (if u.query = [] then [] else '?' :: u.query) ++
    (if u.fragment = [] then [] else '#' :: u.fragment)

/-- The URL with query and fragment stripped, as a string. -/
def PyUrl.stripped (u : PyUrl) : List Char :=
  u.scheme ++ colonSS ++ u.netloc ++ u.path

/-- Base URL as the specification's words describe it (claim C3): the
stripped URL itself when the **path** ends with `/`, otherwise the stripped
URL with its last path segment removed, ending with `/`. -/
def specBaseOfUrl (u : PyUrl) : List Char :=
  if lastIsSlash u.path then u.stripped
  else u.scheme ++ colonSS ++ u.netloc ++ upToLastSlash u.path

-- ---------------------------------------------------------------------------
-- Identity pool and MAC rotation (source lines 133-143)
-- ---------------------------------------------------------------------------

/-- The process-wide MAC cursor map `_mac_pos`; `defaultdict(lambda: -1)`. -/
abbrev PosMap := String → Int

def initPos : PosMap := fun _ => -1

def lookupPool (host : String) : Option (List String) :=
  (MAC_POOLS.find? (fun p => p.1 = host)).map Prod.snd

/-- Model of `_pool` (source lines 135-136): for every host except the token host the
configured pool (default pool when unconfigured); for the token host the
keys of `AUTH_TOKENS` in dict order — the configured pool is not consulted. -/
def _pool (host : String) : List String :=
  if host ≠ "foxx.pure-iptv.net:80" then (lookupPool host).getD DEFAULT_MAC_POOL
  else AUTH_TOKENS.map Prod.fst

/-- Model of `next_mac` (source lines 138-143): advance the host's cursor modulo the
pool size and return the MAC there.  (Python raises on an empty pool; all
callers guard the call by the pool size, so the `getD` default is never
used there.) -/
def next_mac (host : String) (pos : PosMap) : String × PosMap :=
  let pool := _pool host
  let p : Int := (pos host + 1) % (pool.length : Int)
  (pool.getD p.toNat "", fun h => if h = host then p else pos h)

-- ---------------------------------------------------------------------------
-- `obtain_playlist` (source lines 180-206)
-- ---------------------------------------------------------------------------

/-- Outcome of one upstream GET during acquisition: a transport exception,
or a response carrying status, body bytes and the final (post-redirect)
URL string. -/
inductive UpResp where
  | err : UpResp
  | resp (status : Nat) (body : List Nat) (finalUrl : List Char) : UpResp
  deriving Repr, DecidableEq

/-- The response oracle: what the upstream returns for a GET built from a
given (host, mac) pair.  Deterministic per pair, matching one pass of the
acquisition loop. -/
abbrev Oracle := String → String → UpResp

/-- The success test of `obtain_playlist` (source line 197): status 200 and a
non-empty body.  On success it yields the final URL and the body; every
other outcome (network error, status in `BAD_CODES`, any other status, or
200 with empty body) makes the loop continue with the next MAC. -/
def successOf : UpResp → Option (List Char × List Nat)
  | .err => none
  | .resp st body url => if st = 200 ∧ body ≠ [] then some (url, body) else none

/-- The inner per-portal loop of `obtain_playlist` (source lines 184-205):
`fuel` starts at the pool size; each iteration draws the next MAC and stops
at the first successful response.  (The cache write the source performs on
every non-error response does not affect the returned value and is not
modelled.) -/
def tryMacs (oracle : Oracle) (host : String) : Nat → PosMap → Option (List Char × List Nat) × PosMap
  | 0, pos => (none, pos)
  | Nat.succ n, pos =>
    let m := next_mac host pos
    match successOf (oracle host m.1) with
    | some r => (some r, m.2)
    | none => tryMacs oracle host n m.2

/-- The outer chain loop of `obtain_playlist`: `offs` is the chain offset
`enumerate` provides; on the first per-portal success the function returns
`(base, body, (start_idx + offs) % len(PORTALS))`; exhausting the chain
models the raised `HTTPStatusError` as `none`. -/
def obtainAux (oracle : Oracle) (startIdx : Nat) :
    List String → Nat → PosMap → Option (List Char × List Nat × Nat)
  | [], _, _ => none
  | host :: rest, offs, pos =>
    match tryMacs oracle host (_pool host).length pos with
    | (some r, _) => some (baseFromUrl r.1, r.2, (startIdx + offs) % PORTALS.length)
    | (none, pos1) => obtainAux oracle startIdx rest (offs + 1) pos1

/-- The rotated failover chain `PORTALS[start_idx:] + PORTALS[:start_idx]`
(source line 181). -/
def chainOf (startIdx : Nat) : List String :=
  PORTALS.drop startIdx ++ PORTALS.take startIdx

/-- Model of `obtain_playlist(sid, start_idx)` (source lines 180-206) as a function
of the response oracle and the current cursor map.  The stream id only
shapes the request URL, which the oracle abstracts, so it does not appear. -/
def obtain_playlist (oracle : Oracle) (startIdx : Nat) (pos : PosMap) :
    Option (List Char × List Nat × Nat) :=
  obtainAux oracle startIdx (chainOf startIdx) 0 pos

-- The declarative attempt sequence (claim C1's words): every (chain offset,
-- host, MAC) pair the loop would try, portal by portal, each portal exactly
-- pool-size times, with the MACs produced by the rotating cursor.

/-- The `fuel` MACs `next_mac` yields for `host` from cursor state `pos`,
with the final cursor state. -/
def macSeq (host : String) : Nat → PosMap → List String × PosMap
  | 0, pos => ([], pos)
  | Nat.succ n, pos =>
    let m := next_mac host pos
    let r := macSeq host n m.2
    (m.1 :: r.1, r.2)

/-- All attempts for a chain suffix, starting at chain offset `offs`. -/
def attemptsAux : List String → Nat → PosMap → List (Nat × String × String)
  | [], _, _ => []
  | host :: rest, offs, pos =>
    let ms := macSeq host (_pool host).length pos
    ms.1.map (fun m => (offs, host, m)) ++ attemptsAux rest (offs + 1) ms.2

/-- The full (portal, MAC) attempt sequence of `obtain_playlist sid
start_idx` from cursor state `pos`. -/
def attemptSeq (startIdx : Nat) (pos : PosMap) : List (Nat × String × String) :=
  attemptsAux (chainOf startIdx) 0 pos

/-- Whether an attempt succeeds under the oracle. -/
def attemptOk (oracle : Oracle) (a : Nat × String × String) : Bool :=
  (successOf (oracle a.2.1 a.2.2)).isSome

-- ---------------------------------------------------------------------------
-- LRU cache (source lines 108-131) and `fetch` (source lines 145-153)
-- ---------------------------------------------------------------------------

/-- One cache record `(body, exp, st, sz)` (source line 116). -/
structure CEntry where
  body : List Nat
  exp : ℚ
  st : Nat
  sz : Nat
  deriving Repr, DecidableEq

/-- The `LRU(OrderedDict)` state: entries oldest-first (the front is what
`popitem(last=False)` removes; insertion appends at the back), plus the
byte counter `now_b`.  `now_b` is an `Int`, as in Python it could in
principle go negative on inconsistent states. -/
structure LRUCache where
  entries : List (String × CEntry)
  now_b : Int
  deriving Repr, DecidableEq

def emptyCache : LRUCache := { entries := [], now_b := 0 }

/-- Model of `self.pop(k, None)`: remove the entry for `k` (keys are unique in a
dict; the model removes the first occurrence), returning it and the
remaining entries. -/
def popKey : List (String × CEntry) → String → Option CEntry × List (String × CEntry)
  | [], _ => (none, [])
  | (k', e) :: t, k =>
    if k' = k then (some e, t)
    else
      let r := popKey t k
      (r.1, (k', e) :: r.2)

/-- Model of `LRU.get` (source lines 112-120): pop the key; absent → miss; expired
(`exp < now`) → stay removed, subtract the size, miss; live → re-insert at
the most-recently-used end and return `(body, st)`. -/
def LRU.get (c : LRUCache) (k : String) (now : ℚ) : Option (List Nat × Nat) × LRUCache :=
  match popKey c.entries k with
  | (none, _) => (none, c)
  | (some e, rest) =>
    if e.exp < now then (none, { entries := rest, now_b := c.now_b - (e.sz : Int) })
    else (some (e.body, e.st), { entries := rest ++ [(k, e)], now_b := c.now_b })

/-- The eviction loop of `LRU.put` (source lines 129-130): while the byte
or key bound is exceeded, pop the oldest entry and subtract its size.
(Python's `popitem` would raise on an empty dict; with `now_b` equal to the
sum of the stored sizes that state never meets the loop condition.) -/
def evictLoop : List (String × CEntry) → Int → List (String × CEntry) × Int
  | [], nb => ([], nb)
  | (k, e) :: t, nb =>
    if (MAX_CACHE_BYTES : Int) < nb ∨ MAX_CACHE_KEYS < t.length + 1 then
      evictLoop t (nb - (e.sz : Int))
    else ((k, e) :: t, nb)

/-- Model of `LRU.put` (source lines 121-130): a no-op when `ttl ≤ 0`; otherwise
replace any old entry (adjusting `now_b`), insert at the MRU end with
`exp = now + ttl` and `sz = len(b)`, then run the eviction loop. -/
def LRU.put (c : LRUCache) (k : String) (b : List Nat) (ttl : ℚ) (st : Nat) (now : ℚ) : LRUCache :=
  if ttl ≤ 0 then c
  else
    let p := popKey c.entries k
    let nb1 : Int := match p.1 with
      | some e => c.now_b - (e.sz : Int)
      | none => c.now_b
    let sz := b.length
    let l2 := p.2 ++ [(k, { body := b, exp := now + ttl, st := st, sz := sz })]
    let r := evictLoop l2 (nb1 + (sz : Int))
    { entries := r.1, now_b := r.2 }

/-- One `put` call's arguments, for stating invariants over sequences of
puts. -/
structure PutOp where
  k : String
  b : List Nat
  ttl : ℚ
  st : Nat
  t : ℚ
  deriving Repr

def applyPut (c : LRUCache) (op : PutOp) : LRUCache :=
  LRU.put c op.k op.b op.ttl op.st op.t

/-- Total body bytes over the live entries, from the stored sizes. -/
def sumSizes (l : List (String × CEntry)) : Int :=
  (l.map (fun p => (p.2.sz : Int))).sum

/-- Model of `fetch(url, ttl=...)` (source lines 145-153) at time `now`: consult the
cache; on a hit return it; on a miss consult the transport (`none` models a
raised exception), mapping an exception to `(b"", 599)` without caching and
otherwise storing `(body, status)` under the request URL via `put`. -/
def fetch (c : LRUCache) (url : String) (ttl : ℚ) (now : ℚ)
    (transport : Option (List Nat × Nat)) : (List Nat × Nat) × LRUCache :=
  let g := LRU.get c url now
  match g.1 with
  | some v => (v, g.2)
  | none =>
    match transport with
    | none => (([], 599), g.2)
    | some r => (r, LRU.put g.2 url r.1 ttl r.2 now)

/-- The cache's accounting/bound invariant: `now_b` agrees with the stored
sizes, and both cap invariants hold. -/
def cacheInv (c : LRUCache) : Prop :=
  c.now_b = sumSizes c.entries
  ∧ sumSizes c.entries ≤ (MAX_CACHE_BYTES : Int)
  ∧ c.entries.length ≤ MAX_CACHE_KEYS

-- ---------------------------------------------------------------------------
-- Theorems
-- ---------------------------------------------------------------------------

theorem sumSizes_cons (x : String × CEntry) (l : List (String × CEntry)) :
    sumSizes (x :: l) = (x.2.sz : Int) + sumSizes l := by
  simp [sumSizes]

theorem sumSizes_append (l₁ l₂ : List (String × CEntry)) :
    sumSizes (l₁ ++ l₂) = sumSizes l₁ + sumSizes l₂ := by
  simp [sumSizes]

theorem sumSizes_nil : sumSizes [] = 0 := rfl

theorem popKey_sum (l : List (String × CEntry)) (k : String) :
    sumSizes l = sumSizes (popKey l k).2 +
      (match (popKey l k).1 with
       | some e => (e.sz : Int)
       | none => 0) := by
  induction l with
  | nil => simp [popKey, sumSizes]
  | cons x t ih =>
    obtain ⟨x1, x2⟩ := x
    by_cases hx : x1 = k
    · subst hx
      simp [popKey, sumSizes_cons]
      omega
    · simp [popKey, hx, sumSizes_cons]
      omega

theorem evictLoop_spec (l : List (String × CEntry)) (nb : Int) (h : nb = sumSizes l) :
    (evictLoop l nb).2 = sumSizes (evictLoop l nb).1
    ∧ (evictLoop l nb).2 ≤ (MAX_CACHE_BYTES : Int)
    ∧ (evictLoop l nb).1.length ≤ MAX_CACHE_KEYS := by
  induction l generalizing nb with
  | nil =>
    subst h
    refine ⟨rfl, ?_, ?_⟩
    · show sumSizes [] ≤ (MAX_CACHE_BYTES : Int)
      norm_num [sumSizes, MAX_CACHE_BYTES]
    · simp [evictLoop]
  | cons x t ih =>
    rw [sumSizes_cons] at h
    simp only [evictLoop]
    split
    · exact ih (nb - (x.2.sz : Int)) (by omega)
    · next hcond =>
      push_neg at hcond
      exact ⟨by rw [h, sumSizes_cons], by omega, by simpa using hcond.2⟩

theorem applyPut_inv (c : LRUCache) (op : PutOp) (h : cacheInv c) :
    cacheInv (applyPut c op) := by
  obtain ⟨hsum, hb, hk⟩ := h
  by_cases httl : op.ttl ≤ 0
  · simpa [applyPut, LRU.put, httl] using ⟨hsum, hb, hk⟩
  · have hpop := popKey_sum c.entries op.k
    rcases hpk : popKey c.entries op.k with ⟨o, rest⟩
    rw [hpk] at hpop
    simp only [applyPut, LRU.put, if_neg httl, hpk]
    rcases o with _ | e
    · simp at hpop
      have hl2 : c.now_b + ((op.b.length : Nat) : Int) =
          sumSizes (rest ++
            [(op.k, { body := op.b, exp := op.t + op.ttl, st := op.st, sz := op.b.length })]) := by
        rw [sumSizes_append, sumSizes_cons, sumSizes_nil]
        show c.now_b + ((op.b.length : Nat) : Int) =
          sumSizes rest + (((op.b.length : Nat) : Int) + 0)
        omega
      have spec := evictLoop_spec _ _ hl2
      simp only [cacheInv]
      exact ⟨spec.1, spec.1 ▸ spec.2.1, spec.2.2⟩
    · simp at hpop
      have hl2 : c.now_b - ((e.sz : Nat) : Int) + ((op.b.length : Nat) : Int) =
          sumSizes (rest ++
            [(op.k, { body := op.b, exp := op.t + op.ttl, st := op.st, sz := op.b.length })]) := by
        rw [sumSizes_append, sumSizes_cons, sumSizes_nil]
        show c.now_b - ((e.sz : Nat) : Int) + ((op.b.length : Nat) : Int) =
          sumSizes rest + (((op.b.length : Nat) : Int) + 0)
        omega
      have spec := evictLoop_spec _ _ hl2
      simp only [cacheInv]
      exact ⟨spec.1, spec.1 ▸ spec.2.1, spec.2.2⟩

theorem foldl_applyPut_inv (ops : List PutOp) (c : LRUCache) (h : cacheInv c) :
    cacheInv (ops.foldl applyPut c) := by
  induction ops generalizing c with
  | nil => exact h
  | cons op rest ih => exact ih (applyPut c op) (applyPut_inv c op h)

/-- C7: after any sequence of `put`s starting from the empty cache — hence
after every individual `put` in such a sequence — the total bytes over the
live entries is at most `MAX_CACHE_BYTES` and the number of entries is at
most `MAX_CACHE_KEYS`; the eviction loop in `put` re-establishes both
bounds by removing least-recently-used (oldest-first) entries. -/
theorem lru_put_bounds (ops : List PutOp) :
    sumSizes ((ops.foldl applyPut emptyCache).entries) ≤ (MAX_CACHE_BYTES : Int)
    ∧ ((ops.foldl applyPut emptyCache).entries).length ≤ MAX_CACHE_KEYS := by
  have h0 : cacheInv emptyCache := by
    refine ⟨rfl, ?_, by simp [emptyCache]⟩
    norm_num [emptyCache, sumSizes, MAX_CACHE_BYTES]
  exact (foldl_applyPut_inv ops emptyCache h0).2

/-- C10: a re-acquisition triggered from the segment handler never changes
the session's `portal_idx` or `base_url` — the tuple returned by
`obtain_playlist` on that path is discarded (the conclusion holds for every
acquisition outcome `acq`), so both fields are identical before and after
any segment request; and the playlist handler is the path that does update
them: on acquirer success it stores the returned index and base. -/
theorem segment_preserves_portal_and_base (s : Session) (st : Nat) (now : ℚ)
    (acq : AcquireResult) :
    ((segmentStep s st now acq).1.portal_idx = s.portal_idx
      ∧ (segmentStep s st now acq).1.base_url = s.base_url)
    ∧ ∀ pidx base body idx,
        (playlistStep s pidx now (some (base, body, idx))).portal_idx = idx
        ∧ (playlistStep s pidx now (some (base, body, idx))).base_url = base := by
  simp only [segmentStep]
  split <;> split <;> exact ⟨⟨rfl, rfl⟩, fun pidx base body idx => ⟨rfl, rfl⟩⟩

/-- C2 (counterexample): at `seg_ok = 5`, `last_switch = 0`, a 2xx segment
at `now = 4` makes the claimed trigger condition true
(`seg_ok' = 6 ≥ SEG_OK_LIMIT` and `now - last_switch = 4 ≥ MIN_SWITCH_SEC`),
yet the handler does not rotate: the source tests the dwell strictly
(`time.time() - last_switch > MIN_SWITCH_SEC`). -/
theorem segment_rotation_dwell_counterexample :
    (SEG_OK_LIMIT ≤ 5 + 1 ∧ MIN_SWITCH_SEC ≤ (4 : ℚ) - 0)
    ∧ (segmentStep { portal_idx := 0, seg_ok := 5, last_switch := 0,
                     base_url := [], last_use := 0 } 200 4 none).2 = false := by
  refine ⟨⟨by norm_num [SEG_OK_LIMIT], by norm_num [MIN_SWITCH_SEC]⟩, ?_⟩
  norm_num [segmentStep, SEG_OK_LIMIT, MIN_SWITCH_SEC]

/-- C2 (amended): on a matching segment request `seg_ok` becomes
`seg_ok + 1` on a 2xx status and `SEG_OK_LIMIT` otherwise, and the
re-acquisition fires if and only if the new counter reaches
`SEG_OK_LIMIT` and the dwell is **strictly** exceeded
(`now - last_switch > MIN_SWITCH_SEC`, not `≥` as the claim stated); when
it fires `seg_ok` resets to 0 and `last_switch` to `now`, otherwise both
keep their pre-trigger values; `last_use` always becomes `now`. -/
theorem segment_rotation_characterization (s : Session) (st : Nat) (now : ℚ)
    (acq : AcquireResult) :
    ((segmentStep s st now acq).2 = true ↔
      SEG_OK_LIMIT ≤ (if 200 ≤ st ∧ st < 300 then s.seg_ok + 1 else SEG_OK_LIMIT)
        ∧ MIN_SWITCH_SEC < now - s.last_switch)
    ∧ (segmentStep s st now acq).1.seg_ok =
        (if (segmentStep s st now acq).2 then 0
         else if 200 ≤ st ∧ st < 300 then s.seg_ok + 1 else SEG_OK_LIMIT)
    ∧ (segmentStep s st now acq).1.last_switch =
        (if (segmentStep s st now acq).2 then now else s.last_switch)
    ∧ (segmentStep s st now acq).1.last_use = now := by
  by_cases hok : 200 ≤ st ∧ st < 300
  · by_cases htr : SEG_OK_LIMIT ≤ s.seg_ok + 1 ∧ MIN_SWITCH_SEC < now - s.last_switch
    · simp [segmentStep, hok, htr]
    · simp [segmentStep, hok, htr]
  · by_cases htr : SEG_OK_LIMIT ≤ SEG_OK_LIMIT ∧ MIN_SWITCH_SEC < now - s.last_switch
    · simp [segmentStep, hok, htr]
    · have h2 : ¬ MIN_SWITCH_SEC < now - s.last_switch := fun hlt => htr ⟨le_refl _, hlt⟩
      simp [segmentStep, hok, htr, h2]

/-- C6 (counterexample): for the credentialed portal the pool the code uses
is `list(AUTH_TOKENS)` — the token map's keys in dict order — which differs
*as an ordered pool* from the configured pool `P` filtered to MACs with a
known token (`P ∩ keys(T)` in `P`'s order): the two lists disagree already
at position 1. -/
theorem credentialed_pool_counterexample :
    _pool "foxx.pure-iptv.net:80" ≠
      ((lookupPool "foxx.pure-iptv.net:80").getD []).filter
        (fun m => (AUTH_TOKENS.find? (fun p => p.1 = m)).isSome) := by
  decide

/-- C6 (amended): the effective pool of the credentialed portal equals
`keys(T)` in the token map's own order — the configured pool `P` is not
consulted — and for the repository's configuration this coincides with
`P ∩ keys(T)` as a set (every token MAC also appears in `P`), though not
as an ordered pool. -/
theorem credentialed_pool_facts :
    _pool "foxx.pure-iptv.net:80" = AUTH_TOKENS.map Prod.fst
    ∧ (_pool "foxx.pure-iptv.net:80").toFinset =
        (((lookupPool "foxx.pure-iptv.net:80").getD []).filter
          (fun m => (AUTH_TOKENS.find? (fun p => p.1 = m)).isSome)).toFinset := by
  constructor
  · decide
  · decide

/-- C8: a key whose entry carries `exp = insert_time + T` (as `put` stores
for ttl `T > 0`) misses on a `get` strictly after `insert_time + T`: the
entry stays removed and its size is subtracted from `now_b`; a `get` of a
live (unexpired) entry returns its `(body, status)` and re-inserts it at
the most-recently-used end with `now_b` unchanged. -/
theorem lru_get_ttl_expiry (c : LRUCache) (k : String) (now t0 T : ℚ) (e : CEntry)
    (rest : List (String × CEntry))
    (hpop : popKey c.entries k = (some e, rest))
    (hexp : e.exp = t0 + T) (_hT : 0 < T) :
    (t0 + T < now →
      LRU.get c k now = (none, { entries := rest, now_b := c.now_b - (e.sz : Int) }))
    ∧ (now ≤ t0 + T →
      LRU.get c k now = (some (e.body, e.st), { entries := rest ++ [(k, e)], now_b := c.now_b })) := by
  constructor
  · intro h
    simp only [LRU.get, hpop]
    rw [if_pos (by rw [hexp]; exact h)]
  · intro h
    simp only [LRU.get, hpop]
    rw [if_neg (by rw [hexp]; exact not_lt.mpr h)]

/-- C8 (witness): a concrete one-entry cache with `exp = 0 + 3`; at
`now = 4` the get misses, removes the entry and subtracts its byte size. -/
theorem lru_get_ttl_expiry_witness :
    ((0 : ℚ) + 3 < 4 →
      LRU.get { entries := [("u", { body := [7], exp := 3, st := 200, sz := 1 })], now_b := 1 }
        "u" 4 = (none, { entries := [], now_b := 1 - ((1 : Nat) : Int) }))
    ∧ ((4 : ℚ) ≤ 0 + 3 →
      LRU.get { entries := [("u", { body := [7], exp := 3, st := 200, sz := 1 })], now_b := 1 }
        "u" 4 = (some ([7], 200), { entries := [] ++ [("u", { body := [7], exp := 3, st := 200, sz := 1 })], now_b := 1 })) :=
  lru_get_ttl_expiry
    { entries := [("u", { body := [7], exp := 3, st := 200, sz := 1 })], now_b := 1 }
    "u" 4 0 3 { body := [7], exp := 3, st := 200, sz := 1 } []
    rfl (by simp) (by norm_num)

/-- C9: on a cache miss, a transport exception makes `fetch` return the
empty body with synthetic status 599 and leave the cache exactly as the
initial lookup left it (nothing is stored); a transport response
`(b, st)` is returned as is and stored via the cache's `put` under the
request URL. -/
theorem fetch_transport_error (c : LRUCache) (url : String) (ttl now : ℚ)
    (hmiss : (LRU.get c url now).1 = none) :
    fetch c url ttl now none = (([], 599), (LRU.get c url now).2)
    ∧ ∀ b st, fetch c url ttl now (some (b, st)) =
        ((b, st), LRU.put (LRU.get c url now).2 url b ttl st now) := by
  constructor
  · simp only [fetch, hmiss]
  · intro b st
    simp only [fetch, hmiss]

/-- C9 (witness): fetching an uncached URL from the empty cache. -/
theorem fetch_transport_error_witness :
    fetch emptyCache "u" 4 0 none = (([], 599), (LRU.get emptyCache "u" 0).2)
    ∧ ∀ b st, fetch emptyCache "u" 4 0 (some (b, st)) =
        ((b, st), LRU.put (LRU.get emptyCache "u" 0).2 "u" b 4 st 0) :=
  fetch_transport_error emptyCache "u" 4 0 (by decide)

/-- C4: with playlist base `http://cdn.example.com/live/`, the rewriter
maps each of the six table inputs to exactly the listed output; the comment
line passes through byte-identically. -/
theorem rewriter_table :
    rewrite_m3u8 "http://cdn.example.com/live/a.ts".toList "http://cdn.example.com/live/".toList
      = "/segment/http/cdn.example.com/live/a.ts".toList
    ∧ rewrite_m3u8 "a.ts".toList "http://cdn.example.com/live/".toList
      = "/segment/http/cdn.example.com/live/a.ts".toList
    ∧ rewrite_m3u8 "%3A//hls.x/p.ts".toList "http://cdn.example.com/live/".toList
      = "/segment/http/hls.x/p.ts".toList
    ∧ rewrite_m3u8 "://hls.x/p.ts".toList "http://cdn.example.com/live/".toList
      = "/segment/http/hls.x/p.ts".toList
    ∧ rewrite_m3u8 "hls.x//stream/1.ts".toList "http://cdn.example.com/live/".toList
      = "/segment/http/stream/1.ts".toList
    ∧ rewrite_m3u8 "#EXT-X-ENDLIST".toList "http://cdn.example.com/live/".toList
      = "#EXT-X-ENDLIST".toList := by
  refine ⟨?_, ?_, ?_, ?_, ?_, ?_⟩ <;> decide

/-- C5 (counterexample): `normalise` is not idempotent — percent-decoding
can expose a fresh percent escape: `normalise "%2520" = "%20"` while a
second application yields `" "`. -/
theorem normalise_idempotent_counterexample :
    ¬ normalise (normalise "%2520".toList) = normalise "%2520".toList := by
  decide

theorem unquote_cons_ne (c : Char) (rest : List Char) (hc : c ≠ '%') :
    unquote (c :: rest) = c :: unquote rest := by
  rcases rest with _ | ⟨a, _ | ⟨b, r2⟩⟩ <;> simp [unquote, hc]

theorem unquote_no_pct (s : List Char) (h : '%' ∉ s) : unquote s = s := by
  induction s with
  | nil => rfl
  | cons c rest ih =>
    have hc : c ≠ '%' := by
      rintro rfl
      exact h (List.mem_cons_self _ _)
    rw [unquote_cons_ne c rest hc, ih (fun hm => h (List.mem_cons_of_mem c hm))]

theorem startsWithL_append (p t : List Char) : startsWithL p (p ++ t) = true := by
  induction p with
  | nil => rfl
  | cons a ps ih => simp [startsWithL, ih]

theorem startsWithL_exists {p s : List Char} (h : startsWithL p s = true) :
    ∃ t, s = p ++ t := by
  induction p generalizing s with
  | nil => exact ⟨s, rfl⟩
  | cons a ps ih =>
    cases s with
    | nil => simp [startsWithL] at h
    | cons c cs =>
      simp only [startsWithL, Bool.and_eq_true, decide_eq_true_eq] at h
      obtain ⟨rfl, h2⟩ := h
      obtain ⟨t, rfl⟩ := ih h2
      exact ⟨t, rfl⟩

theorem normaliseBranches_pct (x : List Char) :
    normaliseBranches (pctPfx ++ x) = httpCSS ++ x := rfl

theorem normaliseBranches_colon (x : List Char) :
    normaliseBranches (colonSS ++ x) = httpCSS ++ x := rfl

theorem normaliseBranches_http (x : List Char) :
    normaliseBranches (httpCSS ++ x) = httpCSS ++ x := rfl

theorem normaliseBranches_of_not12 (u : List Char)
    (h1 : startsWithL pctPfx u = false) (h2 : startsWithL colonSS u = false) :
    normaliseBranches u =
      if hasDS u ∧ ¬(startsWithL httpCSS u ∨ startsWithL httpsCSS u ∨ startsWithL ['/'] u)
      then httpCSS ++ afterDS u
      else u := by
  simp only [normaliseBranches, h1, h2]
  simp [h1, h2]

/-- The three prefix rewrites are idempotent on their own: every output of
`normaliseBranches` is a fixed point of `normaliseBranches`. -/
theorem normaliseBranches_idem (u : List Char) :
    normaliseBranches (normaliseBranches u) = normaliseBranches u := by
  by_cases hA : startsWithL pctPfx u = true
  · obtain ⟨x, rfl⟩ := startsWithL_exists hA
    rw [normaliseBranches_pct, normaliseBranches_http]
  · by_cases hB : startsWithL colonSS u = true
    · obtain ⟨x, rfl⟩ := startsWithL_exists hB
      rw [normaliseBranches_colon, normaliseBranches_http]
    · have h1 : startsWithL pctPfx u = false := by simpa using hA
      have h2 : startsWithL colonSS u = false := by simpa using hB
      rw [normaliseBranches_of_not12 u h1 h2]
      by_cases hC : hasDS u ∧
          ¬(startsWithL httpCSS u ∨ startsWithL httpsCSS u ∨ startsWithL ['/'] u)
      · rw [if_pos hC, normaliseBranches_http]
      · rw [if_neg hC, normaliseBranches_of_not12 u h1 h2, if_neg hC]

/-- C5 (amended): `normalise` is idempotent on every line whose normalised
form contains no `%` character and is unchanged by whitespace stripping;
in general a second application can differ, because percent-decoding may
expose a fresh percent escape or edge whitespace (the prefix rewrites
themselves are idempotent, see `normaliseBranches_idem`). -/
theorem normalise_idempotent_conditional (s : List Char)
    (h1 : '%' ∉ normalise s) (h2 : pyStrip (normalise s) = normalise s) :
    normalise (normalise s) = normalise s := by
  show normaliseBranches (unquote (pyStrip (normalise s))) = normalise s
  rw [h2, unquote_no_pct _ h1]
  show normaliseBranches (normaliseBranches (unquote (pyStrip s))) =
    normaliseBranches (unquote (pyStrip s))
  exact normaliseBranches_idem _

/-- C5 (witness): the line `a.ts` satisfies both side conditions and is a
`normalise` fixed point. -/
theorem normalise_idempotent_conditional_witness :
    normalise (normalise "a.ts".toList) = normalise "a.ts".toList :=
  normalise_idempotent_conditional "a.ts".toList (by decide) (by decide)

theorem stripQF_render (u : PyUrl) (h : ∀ c ∈ u.stripped, ¬(c = '?' ∨ c = '#')) :
    stripQF u.render = u.stripped := by
  have hall : ∀ c ∈ u.stripped, (fun c => decide (c ≠ '?' ∧ c ≠ '#')) c = true := by
    intro c hc
    have hc' := h c hc
    push_neg at hc'
    simp only [decide_eq_true_eq]
    exact hc'
  have hr : u.render = u.stripped ++
      ((if u.query = [] then [] else '?' :: u.query) ++
       (if u.fragment = [] then [] else '#' :: u.fragment)) := by
    simp [PyUrl.render, PyUrl.stripped, List.append_assoc]
  rw [stripQF, hr, List.takeWhile_append_of_pos hall]
  by_cases hq : u.query = []
  · by_cases hf : u.fragment = []
    · simp [hq, hf]
    · simp [hq, hf, List.takeWhile_cons]
  · simp [hq, List.takeWhile_cons]

theorem dropWhile_slash_ne_nil (s : List Char) (hs : '/' ∈ s) :
    s.reverse.dropWhile (fun x => x ≠ '/') ≠ [] := by
  intro hnil
  have hall := List.dropWhile_eq_nil_iff.mp hnil '/' (List.mem_reverse.mpr hs)
  simp at hall

theorem dropWhile_head_false {p : Char → Bool} (l : List Char) (x : Char) (xs : List Char)
    (h : l.dropWhile p = x :: xs) : p x = false := by
  induction l with
  | nil => simp [List.dropWhile] at h
  | cons a t ih =>
    rw [List.dropWhile_cons] at h
    by_cases hp : p a
    · rw [if_pos hp] at h
      exact ih h
    · rw [if_neg hp] at h
      injection h with h1 _h2
      subst h1
      simpa using hp

theorem beforeLastSlash_cons (c : Char) (s : List Char) (hs : '/' ∈ s) :
    beforeLastSlash (c :: s) = c :: beforeLastSlash s := by
  unfold beforeLastSlash
  rw [if_pos (List.mem_cons_of_mem c hs), if_pos hs, List.reverse_cons, List.dropWhile_append]
  rcases hX : s.reverse.dropWhile (fun x => x ≠ '/') with _ | ⟨x0, X'⟩
  · exact absurd hX (dropWhile_slash_ne_nil s hs)
  · simp

theorem beforeLastSlash_append (a b : List Char) (hb : '/' ∈ b) :
    beforeLastSlash (a ++ b) = a ++ beforeLastSlash b := by
  induction a with
  | nil => simp
  | cons c a' ih =>
    rw [List.cons_append,
      beforeLastSlash_cons c (a' ++ b) (List.mem_append.mpr (Or.inr hb)), ih,
      List.cons_append]

theorem upToLastSlash_eq (s : List Char) (hs : '/' ∈ s) :
    upToLastSlash s = beforeLastSlash s ++ ['/'] := by
  unfold upToLastSlash beforeLastSlash
  rw [if_pos hs]
  rcases hX : s.reverse.dropWhile (fun x => x ≠ '/') with _ | ⟨x0, X'⟩
  · exact absurd hX (dropWhile_slash_ne_nil s hs)
  · have hx0 : x0 = '/' := by
      have hh := dropWhile_head_false _ _ _ hX
      simpa using hh
    subst hx0
    simp

/-- C3 (counterexample): the source decides the branch on whether the
**full** final URL string ends in `/` (source line 199), not whether its
path does: for the final URL `http://h/a?q=/` the code returns the base
`http://h/a` while the claim's path-based rule demands `http://h/`. -/
theorem base_url_path_rule_counterexample :
    ¬ (baseFromUrl (PyUrl.render ⟨"http".toList, "h".toList, "/a".toList, "q=/".toList, []⟩) =
        specBaseOfUrl ⟨"http".toList, "h".toList, "/a".toList, "q=/".toList, []⟩) := by
  decide

/-- C3 (amended): for a final response URL whose stripped part contains no
`?` or `#` and whose path contains a `/`, the base is the query/fragment
stripped URL when the **full URL string** (query and fragment included)
ends with `/`, and otherwise the stripped URL with its last path segment
removed, ending with `/` (the claim's path-based condition fails when a
query or fragment ends with `/`). -/
theorem base_url_derivation (u : PyUrl)
    (hstr : ∀ c ∈ u.stripped, ¬(c = '?' ∨ c = '#'))
    (hpath : '/' ∈ u.path) :
    baseFromUrl u.render =
      (if lastIsSlash u.render then u.stripped
       else u.scheme ++ colonSS ++ u.netloc ++ upToLastSlash u.path)
    ∧ (lastIsSlash u.render = false → lastIsSlash (baseFromUrl u.render) = true) := by
  have hstrip := stripQF_render u hstr
  have m1 : '/' ∈ u.netloc ++ u.path := List.mem_append.mpr (Or.inr hpath)
  have m2 : '/' ∈ colonSS ++ (u.netloc ++ u.path) := List.mem_append.mpr (Or.inr m1)
  have hsplit : u.stripped = u.scheme ++ (colonSS ++ (u.netloc ++ u.path)) := by
    simp [PyUrl.stripped, List.append_assoc]
  constructor
  · by_cases hls : lastIsSlash u.render
    · rw [baseFromUrl, if_pos hls, if_pos hls, hstrip]
    · rw [baseFromUrl, if_neg hls, if_neg hls, hstrip, hsplit,
        beforeLastSlash_append _ _ m2, beforeLastSlash_append _ _ m1,
        beforeLastSlash_append _ _ hpath, upToLastSlash_eq u.path hpath]
      simp [List.append_assoc]
  · intro hls
    rw [baseFromUrl, if_neg (by rw [hls]; exact Bool.false_ne_true)]
    rw [lastIsSlash, List.getLast?_concat]
    decide

/-- C3 (witness): the final URL `http://h/a/b?q` does not end with `/`;
its base is `http://h/a/`. -/
theorem base_url_derivation_witness :
    (baseFromUrl (PyUrl.render ⟨"http".toList, "h".toList, "/a/b".toList, "q".toList, []⟩) =
      (if lastIsSlash (PyUrl.render ⟨"http".toList, "h".toList, "/a/b".toList, "q".toList, []⟩)
       then PyUrl.stripped ⟨"http".toList, "h".toList, "/a/b".toList, "q".toList, []⟩
       else "http".toList ++ colonSS ++ "h".toList ++ upToLastSlash "/a/b".toList))
    ∧ (lastIsSlash (PyUrl.render ⟨"http".toList, "h".toList, "/a/b".toList, "q".toList, []⟩) = false →
        lastIsSlash (baseFromUrl (PyUrl.render ⟨"http".toList, "h".toList, "/a/b".toList, "q".toList, []⟩)) = true) :=
  base_url_derivation ⟨"http".toList, "h".toList, "/a/b".toList, "q".toList, []⟩
    (by decide) (by decide)

/-- The per-portal loop stops at the first MAC (in cursor order) whose
response is a success, and threads the cursor exactly as the full MAC
enumeration does when no MAC succeeds. -/
theorem tryMacs_spec (oracle : Oracle) (host : String) :
    ∀ (n : Nat) (pos : PosMap),
      (tryMacs oracle host n pos).1 =
        ((macSeq host n pos).1.find? (fun m => (successOf (oracle host m)).isSome)).bind
          (fun m => successOf (oracle host m))
      ∧ ((macSeq host n pos).1.find? (fun m => (successOf (oracle host m)).isSome) = none →
          (tryMacs oracle host n pos).2 = (macSeq host n pos).2) := by
  intro n
  induction n with
  | zero => exact fun pos => ⟨rfl, fun _ => rfl⟩
  | succ n ih =>
    intro pos
    simp only [tryMacs, macSeq]
    rcases hsc : successOf (oracle host (next_mac host pos).1) with _ | r
    · have hpred : ¬ ((fun m => (successOf (oracle host m)).isSome) (next_mac host pos).1 = true) := by
        simp [hsc]
      rw [@List.find?_cons_of_neg _ (fun m => (successOf (oracle host m)).isSome) _ _ hpred]
      simp only [hsc]
      exact ⟨(ih (next_mac host pos).2).1, (ih (next_mac host pos).2).2⟩
    · have hpred : (fun m => (successOf (oracle host m)).isSome) (next_mac host pos).1 = true := by
        simp [hsc]
      rw [@List.find?_cons_of_pos _ (fun m => (successOf (oracle host m)).isSome) _ _ hpred]
      refine ⟨?_, fun hc => absurd hc (by simp)⟩
      simp [hsc]

/-- The chain loop returns exactly the first successful attempt of the
declarative attempt sequence, mapped to `(base, body, selected_idx)`. -/
theorem obtainAux_spec (oracle : Oracle) (startIdx : Nat) :
    ∀ (l : List String) (offs : Nat) (pos : PosMap),
      obtainAux oracle startIdx l offs pos =
        ((attemptsAux l offs pos).find? (attemptOk oracle)).bind
          (fun a => (successOf (oracle a.2.1 a.2.2)).map
            (fun r => (baseFromUrl r.1, r.2, (startIdx + a.1) % PORTALS.length))) := by
  intro l
  induction l with
  | nil => exact fun offs pos => rfl
  | cons host rest ih =>
    intro offs pos
    simp only [obtainAux, attemptsAux]
    rw [List.find?_append, List.find?_map]
    have hpred : (attemptOk oracle) ∘ (fun m => (offs, host, m)) =
        fun m => (successOf (oracle host m)).isSome := rfl
    rw [hpred]
    have hin := tryMacs_spec oracle host (_pool host).length pos
    rcases hfd : (macSeq host (_pool host).length pos).1.find?
        (fun m => (successOf (oracle host m)).isSome) with _ | m
    · rw [hfd] at hin
      have h2 := hin.2 rfl
      rcases htm : tryMacs oracle host (_pool host).length pos with ⟨o, pos1⟩
      have h1 : o = none := by
        have ho := hin.1
        rw [htm] at ho
        simpa using ho
      subst h1
      rw [htm] at h2
      simp only at h2
      simp only [Option.map_none', Option.none_or]
      show obtainAux oracle startIdx rest (offs + 1) pos1 = _
      rw [h2]
      exact ih (offs + 1) _
    · have hsm : (successOf (oracle host m)).isSome = true := by
        have hq := List.find?_some hfd
        simpa using hq
      rcases hr : successOf (oracle host m) with _ | r
      · rw [hr] at hsm
        simp at hsm
      · rw [hfd] at hin
        rcases htm : tryMacs oracle host (_pool host).length pos with ⟨o, pos1⟩
        have h1 : o = some r := by
          have ho := hin.1
          rw [htm] at ho
          simpa [hr] using ho
        subst h1
        simp [hr]

/-- C1: for every response oracle, start index and cursor state,
`obtain_playlist` returns exactly the first attempt of the rotated-chain
attempt sequence (each portal contributing its effective-pool-size many
MAC draws, an empty pool contributing none) whose response has status 200
and a non-empty body, mapped to the derived base URL, the body, and the
selected index `(start_idx + chain_offset) % |PORTALS|`; every other
attempt outcome merely advances the search, and when no attempt succeeds
the result is `none` (the raised `NoWorkingIdentity`). -/
theorem obtain_playlist_first_success (oracle : Oracle) (startIdx : Nat) (pos : PosMap) :
    obtain_playlist oracle startIdx pos =
      ((attemptSeq startIdx pos).find? (attemptOk oracle)).bind
        (fun a => (successOf (oracle a.2.1 a.2.2)).map
          (fun r => (baseFromUrl r.1, r.2, (startIdx + a.1) % PORTALS.length))) :=
  obtainAux_spec oracle startIdx (chainOf startIdx) 0 pos

end StalkerProxy
